import Mathlib

/-!
Shallow embedding of `src/utils/api_throttler.py` (class `APIThrottler`),
a per-provider token-bucket rate limiter, together with proofs of the
specification claims about it.

Modelling choices:
* Python `dict[str, float]` becomes an association list `List (String × ℚ)`
  with insert-or-replace update (`setKey`) and `lookupKey`.
* Python floats (token counts, timestamps, rates) become rationals `ℚ`;
  `capacity` stays an integer (`ℤ`) as in the source, cast to `ℚ` where the
  source mixes it with floats.
* The blocking polling loop of `acquire_token` is modelled by
  `acquireLoop`, which runs the loop body once per timestamp in an explicit
  list of poll times; exhausting the list is the timeout path
  (`timeout=0` corresponds to a single-element list, since the loop body
  always runs once before the timeout check).
* Traces of operations against the shared throttler state are lists of
  timestamped primitive steps (`Step`), executed by `runTrace`.
-/

namespace QuickStock

/-- Python `min` on two numbers: the first argument when they tie. -/
def pyMin (a b : ℚ) : ℚ :=
  if a ≤ b then a else b

/-- Insert-or-replace update of an association list, preserving insertion
order like Python `d[k] = v`. -/
def setKey : List (String × ℚ) → String → ℚ → List (String × ℚ)
  | [], k, v => [(k, v)]
  | (k', v') :: rest, k, v =>
    if k' = k then (k, v) :: rest else (k', v') :: setKey rest k v

/-- Association-list lookup, Python `d.get(k)` / `k in d`. -/
def lookupKey : List (String × ℚ) → String → Option ℚ
  | [], _ => none
  | (k', v') :: rest, k => if k' = k then some v' else lookupKey rest k

/-- Python `{**a, **b}`: entries of `b` override / extend those of `a`. -/
def mergeDicts (a b : List (String × ℚ)) : List (String × ℚ) :=
  b.foldl (fun acc p => setKey acc p.1 p.2) a

/-- `APIThrottler.DEFAULT_RATE_LIMITS`. -/
def DEFAULT_RATE_LIMITS : List (String × ℚ) :=
  [("yfinance", 2), ("openai", 10), ("default", 1)]

/-- `APIThrottler.DEFAULT_CAPACITY`. -/
def DEFAULT_CAPACITY : ℤ := 10

/-- State of an `APIThrottler` instance: the rate table and capacity fixed
at construction, and the mutable per-provider token counts and last-refill
timestamps. -/
structure APIThrottler where
  rate_limits : List (String × ℚ)
  capacity : ℤ
  tokens : List (String × ℚ)
  last_update : List (String × ℚ)
  deriving DecidableEq

namespace APIThrottler

/-- `APIThrottler.__init__`: merge the given rate limits over the defaults
(`{**DEFAULT_RATE_LIMITS, **(rate_limits or {})}`), store the capacity,
start with empty bucket maps. No validation is performed. -/
def init (rate_limits : Option (List (String × ℚ)) := none)
    (capacity : ℤ := DEFAULT_CAPACITY) : APIThrottler :=
  { rate_limits := mergeDicts DEFAULT_RATE_LIMITS (rate_limits.getD [])
    capacity := capacity
    tokens := []
    last_update := [] }

/-- `APIThrottler._get_rate_limit`: exact lookup, falling back to the
`"default"` entry, falling back to `1.0`. -/
def getRateLimit (t : APIThrottler) (api_provider : String) : ℚ :=
  match lookupKey t.rate_limits api_provider with
  | some r => r
  | none => (lookupKey t.rate_limits "default").getD 1

/-- `APIThrottler._refill_tokens`: lazily create an unseen provider's bucket
at full capacity; otherwise add `elapsed * rate` tokens capped at capacity
and advance the last-update timestamp. -/
def refillTokens (t : APIThrottler) (api_provider : String)
    (current_time : ℚ) : APIThrottler :=
  match lookupKey t.last_update api_provider with
  | none =>
    { t with
      tokens := setKey t.tokens api_provider (t.capacity : ℚ)
      last_update := setKey t.last_update api_provider current_time }
  | some last =>
    let time_elapsed := current_time - last
    let rate_limit := t.getRateLimit api_provider
    let tokens_to_add := time_elapsed * rate_limit
    let current_tokens := (lookupKey t.tokens api_provider).getD 0
    { t with
      tokens := setKey t.tokens api_provider
        (pyMin (t.capacity : ℚ) (current_tokens + tokens_to_add))
      last_update := setKey t.last_update api_provider current_time }

/-- One iteration of the `acquire_token` loop body at a given clock value:
refill, then grant (consuming one token) when at least one token is
available. -/
def acquireOnce (t : APIThrottler) (api_provider : String) (now : ℚ) :
    Bool × APIThrottler :=
  let t' := t.refillTokens api_provider now
  let tok := (lookupKey t'.tokens api_provider).getD 0
  if 1 ≤ tok then
    (true, { t' with tokens := setKey t'.tokens api_provider (tok - 1) })
  else
    (false, t')

/-- `APIThrottler.acquire_token`, with the polling loop made explicit: the
loop body runs once per timestamp in `pollTimes`; if every attempt fails
the timeout path returns `false`. -/
def acquireLoop (t : APIThrottler) (api_provider : String) :
    List ℚ → Bool × APIThrottler
  | [] => (false, t)
  | now :: rest =>
    let r := t.acquireOnce api_provider now
    if r.1 then (true, r.2) else acquireLoop r.2 api_provider rest

/-- `APIThrottler.get_available_tokens`: refill, then report the count
without consuming. -/
def getAvailableTokens (t : APIThrottler) (api_provider : String)
    (now : ℚ) : ℚ × APIThrottler :=
  let t' := t.refillTokens api_provider now
  ((lookupKey t'.tokens api_provider).getD 0, t')

/-- The loop body of the `reset` all-providers branch: set each listed
provider's bucket to full capacity. -/
def resetProviders (l : List (String × ℚ)) (now : ℚ) (t : APIThrottler) :
    APIThrottler :=
  l.foldl
    (fun s pr =>
      { s with
        tokens := setKey s.tokens pr.1 (s.capacity : ℚ)
        last_update := setKey s.last_update pr.1 now })
    t

/-- Body of the `reset` all-providers branch: iterate over
`self._rate_limits.keys()` setting each bucket to full capacity. -/
def resetAll (t : APIThrottler) (now : ℚ) : APIThrottler :=
  resetProviders t.rate_limits now t

/-- `APIThrottler.reset`. Python truthiness: `if api_provider:` sends both
`None` and the empty string to the all-providers branch. -/
def reset (t : APIThrottler) (api_provider : Option String) (now : ℚ) :
    APIThrottler :=
  match api_provider with
  | some p =>
    if p = "" then t.resetAll now
    else
      { t with
        tokens := setKey t.tokens p (t.capacity : ℚ)
        last_update := setKey t.last_update p now }
  | none => t.resetAll now

/-- `ThrottleContext.__enter__`: acquire, raising `TimeoutError` (payload:
provider name and timeout value) when acquisition fails. -/
def throttleEnter (t : APIThrottler) (api_provider : String)
    (timeout : Option ℚ) (pollTimes : List ℚ) :
    Except (String × Option ℚ) APIThrottler :=
  let r := t.acquireLoop api_provider pollTimes
  if r.1 then .ok r.2 else .error (api_provider, timeout)

/-- `ThrottleContext.__exit__`: only logs; the throttler state is
unchanged. -/
def throttleExit (t : APIThrottler) : APIThrottler :=
  t

/-- `with throttler.throttle(provider, timeout): block` — enter the scoped
acquisition, run the guarded block only on success, then exit. -/
def withThrottle {α : Type} (t : APIThrottler) (api_provider : String)
    (timeout : Option ℚ) (pollTimes : List ℚ)
    (block : APIThrottler → APIThrottler × α) :
    Except (String × Option ℚ) (APIThrottler × α) :=
  match t.throttleEnter api_provider timeout pollTimes with
  | .error e => .error e
  | .ok t' =>
    let r := block t'
    .ok (throttleExit r.1, r.2)

end APIThrottler

/-- A primitive operation against the shared throttler state: one polling
attempt of `acquire_token`, a `get_available_tokens` call, or a `reset`. -/
inductive Step where
  | tryAcquire (api_provider : String)
  | avail (api_provider : String)
  | resetOp (api_provider : Option String)
  deriving DecidableEq

/-- Execute one timestamped step. -/
def runStep (t : APIThrottler) (s : Step) (now : ℚ) : APIThrottler :=
  match s with
  | .tryAcquire p => (t.acquireOnce p now).2
  | .avail p => (t.getAvailableTokens p now).2
  | .resetOp p => t.reset p now

/-- Execute a timestamped trace of steps. -/
def runTrace (t : APIThrottler) : List (ℚ × Step) → APIThrottler
  | [] => t
  | (now, s) :: rest => runTrace (runStep t s now) rest

/-- Execute a trace while counting the successful acquisitions for one
provider. -/
def runTraceCount (t : APIThrottler) (p : String) :
    List (ℚ × Step) → APIThrottler × ℕ
  | [] => (t, 0)
  | (now, s) :: rest =>
    let granted : Bool :=
      match s with
      | .tryAcquire q => q == p && (t.acquireOnce q now).1
      | _ => false
    let r := runTraceCount (runStep t s now) p rest
    (r.1, (if granted then 1 else 0) + r.2)

/-- The timestamps of a trace are non-decreasing and start no earlier than
`t0`. -/
def timesMono : ℚ → List (ℚ × Step) → Bool
  | _, [] => true
  | t0, q :: rest => decide (t0 ≤ q.1) && timesMono q.1 rest

/-- Whether a step is a `reset` call. -/
def Step.isResetOp : Step → Bool
  | .resetOp _ => true
  | _ => false

/-- The clock value after a trace: the last timestamp, or the starting
clock for an empty trace. -/
def endTime : ℚ → List (ℚ × Step) → ℚ
  | t0, [] => t0
  | _, q :: rest => endTime q.1 rest

/-- The safety invariant of the throttler state at clock `now`: every
bucket's token count lies in `[0, capacity]` and no last-refill timestamp
is in the future. -/
def BucketInv (t : APIThrottler) (now : ℚ) : Prop :=
  (∀ p v, lookupKey t.tokens p = some v → 0 ≤ v ∧ v ≤ (t.capacity : ℚ)) ∧
  (∀ p u, lookupKey t.last_update p = some u → u ≤ now)

/-- `n` back-to-back `acquire_token` calls at the same clock value,
returning the list of grant results. -/
def repeatAcquire (t : APIThrottler) (p : String) (now : ℚ) :
    ℕ → List Bool × APIThrottler
  | 0 => ([], t)
  | n + 1 =>
    let r := t.acquireOnce p now
    let rest := repeatAcquire r.2 p now n
    (r.1 :: rest.1, rest.2)

/-- A concrete throttler state used by witnesses: default configuration,
provider `"x"` holding 5 tokens, last refilled at time 0. -/
def sampleT1 : APIThrottler :=
  { APIThrottler.init none 10 with tokens := [("x", 5)], last_update := [("x", 0)] }

/-- A concrete throttler with capacity 0: every bucket is created empty, so
every acquisition attempt fails. -/
def sampleT0 : APIThrottler :=
  APIThrottler.init none 0

/-! ### Association-list lemmas -/

/-- `pyMin` is the lattice `min` on `ℚ`. -/
theorem pyMin_eq_min (a b : ℚ) : pyMin a b = min a b :=
  (min_def a b).symm

theorem lookupKey_setKey (l : List (String × ℚ)) (k k' : String) (v : ℚ) :
    lookupKey (setKey l k v) k' = if k = k' then some v else lookupKey l k' := by
  induction l with
  | nil => by_cases h : k = k' <;> simp [setKey, lookupKey, h]
  | cons hd tl ih =>
    obtain ⟨k₁, v₁⟩ := hd
    by_cases h1 : k₁ = k
    · subst h1
      by_cases h2 : k₁ = k' <;> simp [setKey, lookupKey, h2]
    · by_cases h3 : k = k'
      · subst h3
        simp [setKey, lookupKey, h1, ih]
      · by_cases h2 : k₁ = k'
        · subst h2
          simp [setKey, lookupKey, h1, h3]
        · simp [setKey, lookupKey, h1, h2, h3, ih]

theorem lookupKey_eq_some_mem {l : List (String × ℚ)} {k : String} {v : ℚ}
    (h : lookupKey l k = some v) : (k, v) ∈ l := by
  induction l with
  | nil => simp [lookupKey] at h
  | cons hd tl ih =>
    obtain ⟨k₁, v₁⟩ := hd
    by_cases h1 : k₁ = k
    · subst h1
      simp [lookupKey] at h
      subst h
      exact List.mem_cons_self _ _
    · simp only [lookupKey, if_neg h1] at h
      exact List.mem_cons_of_mem _ (ih h)

/-- The rate resolved for any provider is positive when every entry of the
rate table is. -/
theorem getRateLimit_pos {t : APIThrottler} (hr : ∀ pr ∈ t.rate_limits, (0:ℚ) < pr.2)
    (p : String) : 0 < t.getRateLimit p := by
  cases hl : lookupKey t.rate_limits p with
  | some r =>
    simpa [APIThrottler.getRateLimit, hl] using hr _ (lookupKey_eq_some_mem hl)
  | none =>
    cases hd : lookupKey t.rate_limits "default" with
    | some d =>
      simpa [APIThrottler.getRateLimit, hl, hd] using hr _ (lookupKey_eq_some_mem hd)
    | none => simp [APIThrottler.getRateLimit, hl, hd]

/-! ### Configuration is read-only: no operation changes the rate table or
capacity -/

@[simp] theorem refillTokens_rate_limits (t : APIThrottler) (p : String) (now : ℚ) :
    (t.refillTokens p now).rate_limits = t.rate_limits := by
  unfold APIThrottler.refillTokens
  split <;> rfl

@[simp] theorem refillTokens_capacity (t : APIThrottler) (p : String) (now : ℚ) :
    (t.refillTokens p now).capacity = t.capacity := by
  unfold APIThrottler.refillTokens
  split <;> rfl

@[simp] theorem acquireOnce_rate_limits (t : APIThrottler) (p : String) (now : ℚ) :
    (t.acquireOnce p now).2.rate_limits = t.rate_limits := by
  by_cases h : 1 ≤ (lookupKey (t.refillTokens p now).tokens p).getD 0 <;>
    simp [APIThrottler.acquireOnce, h]

@[simp] theorem acquireOnce_capacity (t : APIThrottler) (p : String) (now : ℚ) :
    (t.acquireOnce p now).2.capacity = t.capacity := by
  by_cases h : 1 ≤ (lookupKey (t.refillTokens p now).tokens p).getD 0 <;>
    simp [APIThrottler.acquireOnce, h]

/-! ### C1: refill of an existing bucket -/

/-- Refill of an existing bucket: the token count becomes
`min(capacity, tokens + elapsed * rate)`, the timestamp becomes `now`, and
no other bucket moves. -/
theorem refill_existing_spec (t : APIThrottler) (p : String)
    (now last tok : ℚ)
    (hl : lookupKey t.last_update p = some last)
    (ht : lookupKey t.tokens p = some tok) :
    lookupKey (t.refillTokens p now).tokens p =
      some (min (t.capacity : ℚ) (tok + (now - last) * t.getRateLimit p)) ∧
    lookupKey (t.refillTokens p now).last_update p = some now ∧
    ∀ q, q ≠ p →
      lookupKey (t.refillTokens p now).tokens q = lookupKey t.tokens q ∧
      lookupKey (t.refillTokens p now).last_update q = lookupKey t.last_update q := by
  refine ⟨?_, ?_, ?_⟩
  · simp [APIThrottler.refillTokens, hl, ht, lookupKey_setKey, pyMin_eq_min]
  · simp [APIThrottler.refillTokens, hl, lookupKey_setKey]
  · intro q hq
    have hqp : ¬ p = q := fun h => hq h.symm
    constructor <;> simp [APIThrottler.refillTokens, hl, ht, lookupKey_setKey, hqp]

/-- C1. For a provider with an existing bucket, a refill computation at
time `now` sets the bucket to
`min(capacity, tokens + (now - lastRefillTime) * ratePerSecond(provider))`,
sets `lastRefillTime` to `now`, and leaves every other provider's bucket
unchanged. -/
theorem refillTokens_existing_bucket (t : APIThrottler) (p : String)
    (now last tok : ℚ)
    (hl : lookupKey t.last_update p = some last)
    (ht : lookupKey t.tokens p = some tok) :
    lookupKey (t.refillTokens p now).tokens p =
      some (min (t.capacity : ℚ) (tok + (now - last) * t.getRateLimit p)) ∧
    lookupKey (t.refillTokens p now).last_update p = some now ∧
    ∀ q, q ≠ p →
      lookupKey (t.refillTokens p now).tokens q = lookupKey t.tokens q ∧
      lookupKey (t.refillTokens p now).last_update q = lookupKey t.last_update q :=
  refill_existing_spec t p now last tok hl ht

/-- Witness for C1 at a concrete state: provider `"x"` with 5 tokens last
refilled at time 0, refilled at time 2 with the default table
(rate `1` for `"x"`): `min(10, 5 + 2*1) = 7`. -/
theorem refillTokens_existing_bucket_witness :
    lookupKey (sampleT1.refillTokens "x" 2).tokens "x" =
      some (min ((10:ℤ) : ℚ) (5 + (2 - 0) * sampleT1.getRateLimit "x")) ∧
    lookupKey (sampleT1.refillTokens "x" 2).last_update "x" = some 2 ∧
    lookupKey (sampleT1.refillTokens "x" 2).tokens "y" =
      lookupKey sampleT1.tokens "y" := by
  have h := refillTokens_existing_bucket sampleT1 "x" 2 0 5 (by decide) (by decide)
  exact ⟨h.1, h.2.1, (h.2.2 "y" (by decide)).1⟩

/-! ### Characterizations of a single acquisition attempt -/

/-- An unseen provider's bucket is created at full capacity by the refill,
other buckets untouched. -/
theorem refillTokens_new_bucket (t : APIThrottler) (p : String) (now : ℚ)
    (h : lookupKey t.last_update p = none) :
    lookupKey (t.refillTokens p now).tokens p = some (t.capacity : ℚ) ∧
    lookupKey (t.refillTokens p now).last_update p = some now ∧
    ∀ q, q ≠ p →
      lookupKey (t.refillTokens p now).tokens q = lookupKey t.tokens q ∧
      lookupKey (t.refillTokens p now).last_update q = lookupKey t.last_update q := by
  refine ⟨?_, ?_, ?_⟩
  · simp [APIThrottler.refillTokens, h, lookupKey_setKey]
  · simp [APIThrottler.refillTokens, h, lookupKey_setKey]
  · intro q hq
    have hqp : ¬ p = q := fun h' => hq h'.symm
    constructor <;> simp [APIThrottler.refillTokens, h, lookupKey_setKey, hqp]

theorem acquireOnce_false (t : APIThrottler) (p : String) (now : ℚ)
    (h : ¬ 1 ≤ (lookupKey (t.refillTokens p now).tokens p).getD 0) :
    t.acquireOnce p now = (false, t.refillTokens p now) := by
  simp [APIThrottler.acquireOnce, h]

theorem acquireOnce_true (t : APIThrottler) (p : String) (now : ℚ)
    (h : 1 ≤ (lookupKey (t.refillTokens p now).tokens p).getD 0) :
    t.acquireOnce p now =
      (true, { t.refillTokens p now with
               tokens := setKey (t.refillTokens p now).tokens p
                 ((lookupKey (t.refillTokens p now).tokens p).getD 0 - 1) }) := by
  simp [APIThrottler.acquireOnce, h]

theorem acquireOnce_fst (t : APIThrottler) (p : String) (now : ℚ) :
    (t.acquireOnce p now).1 =
      decide (1 ≤ (lookupKey (t.refillTokens p now).tokens p).getD 0) := by
  by_cases h : 1 ≤ (lookupKey (t.refillTokens p now).tokens p).getD 0 <;>
    simp [APIThrottler.acquireOnce, h]

/-! ### C10: a zero timeout never prevents an immediately available
acquisition -/

/-- C10. If the bucket holds at least one token after the refill, a single
polling attempt (all that a zero timeout allows) grants and consumes
exactly one token: the timeout is only checked after a grant attempt
fails. -/
theorem zero_timeout_grants_available_token (t : APIThrottler) (p : String) (now : ℚ)
    (h : 1 ≤ (lookupKey (t.refillTokens p now).tokens p).getD 0) :
    (t.acquireLoop p [now]).1 = true ∧
    lookupKey (t.acquireLoop p [now]).2.tokens p =
      some ((lookupKey (t.refillTokens p now).tokens p).getD 0 - 1) := by
  simp [APIThrottler.acquireLoop, acquireOnce_true t p now h, lookupKey_setKey]

/-- Witness for C10: the sample state has 5 tokens for `"x"`; a
single-attempt acquire at time 0 grants and leaves 4. -/
theorem zero_timeout_grants_available_token_witness :
    (1:ℚ) ≤ (lookupKey (sampleT1.refillTokens "x" 0).tokens "x").getD 0 ∧
    (sampleT1.acquireLoop "x" [0]).1 = true ∧
    lookupKey (sampleT1.acquireLoop "x" [0]).2.tokens "x" =
      some ((lookupKey (sampleT1.refillTokens "x" 0).tokens "x").getD 0 - 1) :=
  have h : (1:ℚ) ≤ (lookupKey (sampleT1.refillTokens "x" 0).tokens "x").getD 0 := by
    norm_num [sampleT1, APIThrottler.init, APIThrottler.refillTokens,
      APIThrottler.getRateLimit, mergeDicts, DEFAULT_RATE_LIMITS, lookupKey,
      setKey, pyMin]
  ⟨h, zero_timeout_grants_available_token sampleT1 "x" 0 h⟩

/-! ### C4: a failed acquisition consumes nothing -/

/-- C4. When the polling loop of `acquire_token` returns `false` (timeout),
the resulting state is exactly the one produced by the refill computations
alone — no token was consumed. In particular a zero-timeout call (a single
attempt) on an exhausted bucket returns `false` leaving only the refill in
place. -/
theorem failed_acquire_consumes_nothing :
    (∀ (t : APIThrottler) (p : String) (times : List ℚ),
        (t.acquireLoop p times).1 = false →
        (t.acquireLoop p times).2 =
          times.foldl (fun s now => s.refillTokens p now) t) ∧
    (∀ (t : APIThrottler) (p : String) (t0 : ℚ),
        (lookupKey (t.refillTokens p t0).tokens p).getD 0 < 1 →
        t.acquireLoop p [t0] = (false, t.refillTokens p t0)) := by
  constructor
  · intro t p times
    induction times generalizing t with
    | nil => intro _; rfl
    | cons now rest ih =>
      intro h
      by_cases hg : 1 ≤ (lookupKey (t.refillTokens p now).tokens p).getD 0
      · rw [APIThrottler.acquireLoop, acquireOnce_true t p now hg] at h
        simp at h
      · rw [List.foldl_cons]
        rw [APIThrottler.acquireLoop, acquireOnce_false t p now hg] at h ⊢
        simpa using ih _ (by simpa using h)
  · intro t p t0 h
    rw [APIThrottler.acquireLoop, acquireOnce_false t p t0 (not_le.mpr h)]
    rfl

/-- Witness for C4: on the capacity-0 throttler every attempt fails; the
state after a failed single-attempt acquire is the refill-only state. -/
theorem failed_acquire_consumes_nothing_witness :
    (sampleT0.acquireLoop "x" [0]).2 =
      [(0:ℚ)].foldl (fun s now => s.refillTokens "x" now) sampleT0 ∧
    sampleT0.acquireLoop "x" [0] = (false, sampleT0.refillTokens "x" 0) :=
  have h : (lookupKey (sampleT0.refillTokens "x" 0).tokens "x").getD 0 < 1 := by
    norm_num [sampleT0, APIThrottler.init, APIThrottler.refillTokens,
      APIThrottler.getRateLimit, mergeDicts, DEFAULT_RATE_LIMITS, lookupKey,
      setKey, pyMin]
  have hfst : (sampleT0.acquireLoop "x" [0]).1 = false := by
    rw [APIThrottler.acquireLoop, acquireOnce_false sampleT0 "x" 0 (not_le.mpr h)]
    simp [APIThrottler.acquireLoop]
  ⟨failed_acquire_consumes_nothing.1 sampleT0 "x" [0] hfst,
   failed_acquire_consumes_nothing.2 sampleT0 "x" 0 h⟩

/-! ### C5: a fresh bucket grants exactly `capacity` immediate
acquisitions -/

/-- A refill at the bucket's own last-refill time adds nothing: the token
count is unchanged (elapsed time is zero and the count is already within
capacity). -/
theorem refillTokens_same_time (t : APIThrottler) (p : String) (t0 v : ℚ)
    (ht : lookupKey t.tokens p = some v) (hl : lookupKey t.last_update p = some t0)
    (hv : v ≤ (t.capacity : ℚ)) :
    lookupKey (t.refillTokens p t0).tokens p = some v ∧
    lookupKey (t.refillTokens p t0).last_update p = some t0 := by
  have h := refill_existing_spec t p t0 t0 v hl ht
  refine ⟨?_, h.2.1⟩
  rw [h.1]
  congr 1
  rw [sub_self, zero_mul, add_zero]
  exact min_eq_right hv

/-- Draining a synced bucket: `n` immediate acquisitions all succeed while
at least `n` tokens are available, ending with exactly `n` fewer tokens. -/
theorem repeatAcquire_drain (p : String) (t0 : ℚ) (n : ℕ) :
    ∀ (t : APIThrottler) (v : ℚ),
      lookupKey t.tokens p = some v → lookupKey t.last_update p = some t0 →
      v ≤ (t.capacity : ℚ) → (n : ℚ) ≤ v →
      (repeatAcquire t p t0 n).1 = List.replicate n true ∧
      lookupKey (repeatAcquire t p t0 n).2.tokens p = some (v - n) ∧
      lookupKey (repeatAcquire t p t0 n).2.last_update p = some t0 ∧
      (repeatAcquire t p t0 n).2.capacity = t.capacity := by
  induction n with
  | zero =>
    intro t v ht hl _ _
    simpa [repeatAcquire] using ⟨ht, hl⟩
  | succ n ih =>
    intro t v ht hl hvc hnv
    have hsame := refillTokens_same_time t p t0 v ht hl hvc
    have hv1 : (1:ℚ) ≤ v := by
      have : ((n:ℚ) + 1) ≤ v := by push_cast at hnv; linarith
      linarith [Nat.cast_nonneg (α := ℚ) n]
    have h1le : (1:ℚ) ≤ (lookupKey (t.refillTokens p t0).tokens p).getD 0 := by
      rw [hsame.1]; simpa using hv1
    have hacq := acquireOnce_true t p t0 h1le
    have hfst : (t.acquireOnce p t0).1 = true := by rw [hacq]
    have hts1 : lookupKey (t.acquireOnce p t0).2.tokens p = some (v - 1) := by
      rw [hacq]
      simp [lookupKey_setKey, hsame.1]
    have hls1 : lookupKey (t.acquireOnce p t0).2.last_update p = some t0 := by
      rw [hacq]
      simpa using hsame.2
    have hcs1 : (t.acquireOnce p t0).2.capacity = t.capacity :=
      acquireOnce_capacity t p t0
    have ihr := ih (t.acquireOnce p t0).2 (v - 1) hts1 hls1
      (by rw [hcs1]; linarith) (by push_cast at hnv ⊢; linarith)
    refine ⟨?_, ?_, ?_, ?_⟩
    · simp only [repeatAcquire, hfst, ihr.1, List.replicate_succ]
    · simp only [repeatAcquire]
      rw [ihr.2.1]
      congr 1
      push_cast
      ring
    · simp only [repeatAcquire]
      exact ihr.2.2.1
    · simp only [repeatAcquire]
      rw [ihr.2.2.2, hcs1]

/-- C5. From a fresh throttler with positive integer capacity `n`, `n`
back-to-back `acquire_token` calls at one instant all grant, and the
`(n+1)`-th attempt at the same instant does not. -/
theorem burst_exactly_capacity (rl : Option (List (String × ℚ))) (n : ℕ)
    (hn : 1 ≤ n) (p : String) (t0 : ℚ) :
    (repeatAcquire (APIThrottler.init rl (n : ℤ)) p t0 n).1 =
      List.replicate n true ∧
    ((repeatAcquire (APIThrottler.init rl (n : ℤ)) p t0 n).2.acquireOnce p t0).1 =
      false := by
  obtain ⟨m, rfl⟩ : ∃ m, n = m + 1 := ⟨n - 1, (Nat.succ_pred_eq_of_pos hn).symm⟩
  set t := APIThrottler.init rl ((m + 1 : ℕ) : ℤ) with htdef
  have hnew : lookupKey t.last_update p = none := rfl
  have hfill := refillTokens_new_bucket t p t0 hnew
  have hcapq : (t.capacity : ℚ) = ((m : ℚ) + 1) := by
    rw [htdef]; push_cast [APIThrottler.init]; ring
  have h1le : (1:ℚ) ≤ (lookupKey (t.refillTokens p t0).tokens p).getD 0 := by
    rw [hfill.1]
    simp only [Option.getD_some, hcapq]
    linarith [Nat.cast_nonneg (α := ℚ) m]
  have hacq := acquireOnce_true t p t0 h1le
  have hfst : (t.acquireOnce p t0).1 = true := by rw [hacq]
  have hts1 : lookupKey (t.acquireOnce p t0).2.tokens p =
      some ((t.capacity : ℚ) - 1) := by
    rw [hacq]
    simp [lookupKey_setKey, hfill.1]
  have hls1 : lookupKey (t.acquireOnce p t0).2.last_update p = some t0 := by
    rw [hacq]
    simpa using hfill.2.1
  have hcs1 : (t.acquireOnce p t0).2.capacity = t.capacity :=
    acquireOnce_capacity t p t0
  have ihr := repeatAcquire_drain p t0 m (t.acquireOnce p t0).2
    ((t.capacity : ℚ) - 1) hts1 hls1
    (by rw [hcs1]; linarith)
    (by rw [hcapq]; linarith)
  constructor
  · simp only [repeatAcquire, hfst, ihr.1, List.replicate_succ]
  · have hzero : lookupKey (repeatAcquire t p t0 (m + 1)).2.tokens p = some 0 := by
      simp only [repeatAcquire]
      rw [ihr.2.1, hcapq]
      norm_num
    have hlast : lookupKey (repeatAcquire t p t0 (m + 1)).2.last_update p =
        some t0 := by
      simp only [repeatAcquire]
      exact ihr.2.2.1
    have hcapf : (0:ℚ) ≤ ((repeatAcquire t p t0 (m + 1)).2.capacity : ℚ) := by
      simp only [repeatAcquire]
      rw [ihr.2.2.2, hcs1, hcapq]
      linarith [Nat.cast_nonneg (α := ℚ) m]
    have hsame := refillTokens_same_time (repeatAcquire t p t0 (m + 1)).2 p t0 0
      hzero hlast hcapf
    rw [acquireOnce_fst, hsame.1]
    norm_num

/-- Witness for C5: default configuration with capacity 10 — ten immediate
grants, the eleventh attempt fails. -/
theorem burst_exactly_capacity_witness :
    (repeatAcquire (APIThrottler.init none ((10:ℕ) : ℤ)) "x" 0 10).1 =
      List.replicate 10 true ∧
    ((repeatAcquire (APIThrottler.init none ((10:ℕ) : ℤ)) "x" 0 10).2.acquireOnce
        "x" 0).1 = false :=
  burst_exactly_capacity none 10 (by decide) "x" 0

/-! ### C9: unknown providers fall back to the `"default"` rate -/

theorem lookupKey_mergeDicts_isSome (a b : List (String × ℚ)) (k : String)
    (h : (lookupKey a k).isSome) : (lookupKey (mergeDicts a b) k).isSome := by
  induction b generalizing a with
  | nil => exact h
  | cons hd tl ih =>
    have heq : mergeDicts a (hd :: tl) = mergeDicts (setKey a hd.1 hd.2) tl := rfl
    rw [heq]
    apply ih
    rw [lookupKey_setKey]
    by_cases hk : hd.1 = k <;> simp [hk, h]

/-- C9. A provider name absent from the rate table and never seen before:
its first acquisition succeeds (for positive capacity), its bucket is
lazily created at full capacity, the `"default"` rate-table entry always
exists, and the rate used for the provider is that `"default"` entry. -/
theorem unknown_provider_uses_default (rl : Option (List (String × ℚ)))
    (cap : ℤ) (hcap : 1 ≤ cap) (p : String) (t0 : ℚ)
    (hp : lookupKey (APIThrottler.init rl cap).rate_limits p = none) :
    ((APIThrottler.init rl cap).acquireOnce p t0).1 = true ∧
    lookupKey ((APIThrottler.init rl cap).refillTokens p t0).tokens p =
      some ((cap : ℚ)) ∧
    (lookupKey (APIThrottler.init rl cap).rate_limits "default").isSome = true ∧
    (APIThrottler.init rl cap).getRateLimit p =
      (lookupKey (APIThrottler.init rl cap).rate_limits "default").getD 1 := by
  have hnew : lookupKey (APIThrottler.init rl cap).last_update p = none := rfl
  have hfill := refillTokens_new_bucket (APIThrottler.init rl cap) p t0 hnew
  have hcapq : (1:ℚ) ≤ (cap : ℚ) := by exact_mod_cast hcap
  refine ⟨?_, hfill.1, ?_, ?_⟩
  · rw [acquireOnce_fst, hfill.1]
    simpa using hcapq
  · exact lookupKey_mergeDicts_isSome DEFAULT_RATE_LIMITS ((rl).getD [])
      "default" (by rfl)
  · simp [APIThrottler.getRateLimit, hp]

/-- Witness for C9 at the provider name `"never-seen-before"` against the
default configuration. -/
theorem unknown_provider_uses_default_witness :
    ((APIThrottler.init none 10).acquireOnce "never-seen-before" 0).1 = true ∧
    lookupKey ((APIThrottler.init none 10).refillTokens "never-seen-before" 0).tokens
      "never-seen-before" = some ((10 : ℤ) : ℚ) ∧
    (lookupKey (APIThrottler.init none 10).rate_limits "default").isSome = true ∧
    (APIThrottler.init none 10).getRateLimit "never-seen-before" =
      (lookupKey (APIThrottler.init none 10).rate_limits "default").getD 1 :=
  unknown_provider_uses_default none 10 (by decide) "never-seen-before" 0 (by rfl)

/-! ### C8: the scoped-acquisition wrapper -/

/-- C8. The scoped acquisition (`with throttler.throttle(p, timeout)`)
calls `acquire` on entry; on failure the whole construct produces a
`Timeout` error carrying the provider name and the timeout value and the
guarded block is never run; on success the block runs on the post-acquire
state and exit (`throttleExit`) changes no state. -/
theorem throttle_scoped_acquisition {α : Type} (t : APIThrottler) (p : String)
    (timeout : Option ℚ) (pollTimes : List ℚ)
    (block : APIThrottler → APIThrottler × α) :
    t.withThrottle p timeout pollTimes block =
      (if (t.acquireLoop p pollTimes).1 = true then
        Except.ok (block (t.acquireLoop p pollTimes).2)
       else Except.error (p, timeout)) ∧
    ∀ s : APIThrottler, s.throttleExit = s := by
  constructor
  · by_cases h : (t.acquireLoop p pollTimes).1 = true <;>
      simp [APIThrottler.withThrottle, APIThrottler.throttleEnter,
        APIThrottler.throttleExit, h]
  · intro s
    rfl

/-! ### C6 (corrected): what `reset` actually resets -/

/-- Counterexample to C6 as stated: after provider `"foo"` (absent from
the rate table) has consumed one token, `reset` with no provider name
leaves `"foo"` at 9 tokens — an existing bucket that is not set back to
`tokens = capacity = 10`. -/
theorem reset_all_misses_unlisted_bucket :
    lookupKey
      ((((APIThrottler.init none 10).acquireOnce "foo" 0).2.reset none 5)).tokens
      "foo" = some 9 ∧
    (((((APIThrottler.init none 10).acquireOnce "foo" 0).2.reset none
        5)).capacity : ℚ) ≠ 9 := by
  constructor
  · norm_num [APIThrottler.init, APIThrottler.acquireOnce, APIThrottler.refillTokens,
      APIThrottler.getRateLimit, APIThrottler.reset, APIThrottler.resetAll,
      APIThrottler.resetProviders, mergeDicts, DEFAULT_RATE_LIMITS, lookupKey,
      setKey, pyMin]
  · norm_num [APIThrottler.init, APIThrottler.acquireOnce, APIThrottler.refillTokens,
      APIThrottler.getRateLimit, APIThrottler.reset, APIThrottler.resetAll,
      APIThrottler.resetProviders, mergeDicts, DEFAULT_RATE_LIMITS, lookupKey,
      setKey, pyMin]

/-- Iterating the reset loop body over a key list: listed providers end at
full capacity with the new timestamp, every other bucket is untouched, and
the configuration fields are unchanged. -/
theorem resetProviders_spec (now : ℚ) (l : List (String × ℚ)) :
    ∀ (t : APIThrottler) (q : String),
      (APIThrottler.resetProviders l now t).capacity = t.capacity ∧
      (APIThrottler.resetProviders l now t).rate_limits = t.rate_limits ∧
      (q ∈ l.map Prod.fst →
        lookupKey (APIThrottler.resetProviders l now t).tokens q =
          some (t.capacity : ℚ) ∧
        lookupKey (APIThrottler.resetProviders l now t).last_update q = some now) ∧
      (q ∉ l.map Prod.fst →
        lookupKey (APIThrottler.resetProviders l now t).tokens q =
          lookupKey t.tokens q ∧
        lookupKey (APIThrottler.resetProviders l now t).last_update q =
          lookupKey t.last_update q) := by
  induction l with
  | nil =>
    intro t q
    refine ⟨rfl, rfl, ?_, fun _ => ⟨rfl, rfl⟩⟩
    intro h
    simp at h
  | cons hd tl ih =>
    intro t q
    have heq : APIThrottler.resetProviders (hd :: tl) now t =
        APIThrottler.resetProviders tl now
          { t with
            tokens := setKey t.tokens hd.1 (t.capacity : ℚ)
            last_update := setKey t.last_update hd.1 now } := rfl
    rw [heq]
    set t1 : APIThrottler :=
      { t with
        tokens := setKey t.tokens hd.1 (t.capacity : ℚ)
        last_update := setKey t.last_update hd.1 now } with ht1
    obtain ⟨ihc, ihr, ihm, ihn⟩ := ih t1 q
    refine ⟨ihc, ihr, ?_, ?_⟩
    · intro hq
      by_cases hmem : q ∈ tl.map Prod.fst
      · exact ihm hmem
      · have hq1 : q = hd.1 := by
          rcases List.mem_cons.mp hq with h | h
          · exact h
          · exact absurd h hmem
        obtain ⟨ha, hb⟩ := ihn hmem
        rw [ha, hb, ht1]
        simp [lookupKey_setKey, hq1]
    · intro hq
      have hmem : q ∉ tl.map Prod.fst := fun h => hq (List.mem_cons_of_mem _ h)
      have hq1 : ¬ hd.1 = q := by
        intro h
        exact hq (List.mem_cons.mpr (Or.inl h.symm))
      obtain ⟨ha, hb⟩ := ihn hmem
      rw [ha, hb, ht1]
      simp [lookupKey_setKey, hq1]

/-- C6 as amended. `reset` with a non-empty provider name sets that
provider's bucket to `tokens = capacity`, `lastRefillTime = now`, leaving
all other buckets unchanged. `reset` with no name (the all-providers
branch) resets exactly the providers listed in the rate table — creating
their buckets if absent — and leaves buckets of providers outside the rate
table unchanged. -/
theorem reset_amended (t : APIThrottler) (now : ℚ) :
    (∀ p : String, p ≠ "" →
      lookupKey (t.reset (some p) now).tokens p = some (t.capacity : ℚ) ∧
      lookupKey (t.reset (some p) now).last_update p = some now ∧
      ∀ q, q ≠ p →
        lookupKey (t.reset (some p) now).tokens q = lookupKey t.tokens q ∧
        lookupKey (t.reset (some p) now).last_update q =
          lookupKey t.last_update q) ∧
    (∀ q : String,
      (q ∈ t.rate_limits.map Prod.fst →
        lookupKey (t.reset none now).tokens q = some (t.capacity : ℚ) ∧
        lookupKey (t.reset none now).last_update q = some now) ∧
      (q ∉ t.rate_limits.map Prod.fst →
        lookupKey (t.reset none now).tokens q = lookupKey t.tokens q ∧
        lookupKey (t.reset none now).last_update q =
          lookupKey t.last_update q)) := by
  constructor
  · intro p hp
    refine ⟨?_, ?_, ?_⟩
    · simp [APIThrottler.reset, hp, lookupKey_setKey]
    · simp [APIThrottler.reset, hp, lookupKey_setKey]
    · intro q hq
      have hpq : ¬ p = q := fun h => hq h.symm
      constructor <;> simp [APIThrottler.reset, hp, lookupKey_setKey, hpq]
  · intro q
    have h := resetProviders_spec now t.rate_limits t q
    exact ⟨fun hm => (h.2.2.1 hm), fun hm => (h.2.2.2 hm)⟩

/-- Witness for the amended C6: in the concrete state of the
counterexample, `reset(None)` resets the rate-table provider `"yfinance"`
but not the unlisted `"foo"`; `reset("foo")` resets `"foo"` only. -/
theorem reset_amended_witness :
    (lookupKey
        ((((APIThrottler.init none 10).acquireOnce "foo" 0).2.reset none 5)).tokens
        "yfinance" = some (((10:ℤ) : ℚ)) ∧
      lookupKey
        ((((APIThrottler.init none 10).acquireOnce "foo" 0).2.reset none 5)).tokens
        "foo" =
        lookupKey (((APIThrottler.init none 10).acquireOnce "foo" 0).2).tokens
          "foo") ∧
    lookupKey
      ((((APIThrottler.init none 10).acquireOnce "foo" 0).2.reset (some "foo")
          5)).tokens "foo" = some (((10:ℤ) : ℚ)) := by
  have h := reset_amended (((APIThrottler.init none 10).acquireOnce "foo" 0).2) 5
  have hrl : (((APIThrottler.init none 10).acquireOnce "foo" 0).2).rate_limits =
      DEFAULT_RATE_LIMITS := by
    rw [acquireOnce_rate_limits]
    rfl
  refine ⟨⟨?_, ?_⟩, ?_⟩
  · have := (h.2 "yfinance").1 (by rw [hrl]; decide)
    exact this.1
  · have := (h.2 "foo").2 (by rw [hrl]; decide)
    exact this.1
  · exact ((h.1 "foo" (by decide)).1)

/-! ### C7 (corrected): misconfiguration is not rejected at construction -/

/-- Counterexample to C7 as stated: the constructor accepts a negative
rate for provider `"p"` without any configuration error — the value is
stored as given — and the misconfiguration is encountered mid-operation:
after one grant at time 0, `get_available_tokens` at time 20 reports `-11`
tokens. -/
theorem misconfiguration_not_rejected :
    (APIThrottler.init (some [("p", -1)]) 10).capacity = 10 ∧
    lookupKey (APIThrottler.init (some [("p", -1)]) 10).rate_limits "p" =
      some (-1) ∧
    ((((APIThrottler.init (some [("p", -1)]) 10).acquireOnce "p" 0).2.getAvailableTokens
        "p" 20).1 = -11 ∧ (-11 : ℚ) < 0) := by
  refine ⟨rfl, by decide, ?_, by norm_num⟩
  simp [APIThrottler.init, APIThrottler.acquireOnce, APIThrottler.refillTokens,
    APIThrottler.getAvailableTokens, APIThrottler.getRateLimit, mergeDicts,
    DEFAULT_RATE_LIMITS, lookupKey, setKey]
  norm_num [pyMin]

/-- C7 as amended. The constructor performs no validation: any capacity
and any rates are stored as given, and the misconfiguration is only
encountered mid-operation — in particular with a non-positive capacity
every acquisition attempt fails. -/
theorem misconfiguration_amended (rl : Option (List (String × ℚ))) (cap : ℤ)
    (hcap : cap ≤ 0) (p : String) (t0 : ℚ) :
    (APIThrottler.init rl cap).capacity = cap ∧
    ((APIThrottler.init rl cap).acquireOnce p t0).1 = false := by
  refine ⟨rfl, ?_⟩
  have hnew : lookupKey (APIThrottler.init rl cap).last_update p = none := rfl
  have hfill := refillTokens_new_bucket (APIThrottler.init rl cap) p t0 hnew
  rw [acquireOnce_fst, hfill.1]
  have : ((APIThrottler.init rl cap).capacity : ℚ) ≤ 0 := by exact_mod_cast hcap
  simp only [Option.getD_some, decide_eq_false_iff_not]
  intro hc
  linarith

/-- Witness for the amended C7 at capacity `-3`. -/
theorem misconfiguration_amended_witness :
    (APIThrottler.init none (-3)).capacity = -3 ∧
    ((APIThrottler.init none (-3)).acquireOnce "x" 0).1 = false :=
  misconfiguration_amended none (-3) (by decide) "x" 0

/-! ### C2: the token count stays within `[0, capacity]` -/

/-- Refill of a provider already carrying a last-update timestamp, without
assuming its token entry exists (the source falls back to `0.0`). -/
theorem refill_some_spec (t : APIThrottler) (p : String) (now last : ℚ)
    (hl : lookupKey t.last_update p = some last) :
    lookupKey (t.refillTokens p now).tokens p =
      some (pyMin (t.capacity : ℚ)
        ((lookupKey t.tokens p).getD 0 + (now - last) * t.getRateLimit p)) ∧
    lookupKey (t.refillTokens p now).last_update p = some now ∧
    ∀ q, q ≠ p →
      lookupKey (t.refillTokens p now).tokens q = lookupKey t.tokens q ∧
      lookupKey (t.refillTokens p now).last_update q =
        lookupKey t.last_update q := by
  refine ⟨?_, ?_, ?_⟩
  · simp [APIThrottler.refillTokens, hl, lookupKey_setKey]
  · simp [APIThrottler.refillTokens, hl, lookupKey_setKey]
  · intro q hq
    have hqp : ¬ p = q := fun h => hq h.symm
    constructor <;> simp [APIThrottler.refillTokens, hl, lookupKey_setKey, hqp]

theorem refillTokens_preserves_inv (t : APIThrottler) (p : String)
    (now now' : ℚ) (hcap : (0:ℚ) ≤ (t.capacity : ℚ))
    (hr : ∀ pr ∈ t.rate_limits, (0:ℚ) < pr.2)
    (hle : now ≤ now') (hinv : BucketInv t now) :
    BucketInv (t.refillTokens p now') now' := by
  obtain ⟨htok, hlast⟩ := hinv
  constructor
  · intro q v hv
    rw [refillTokens_capacity]
    cases hl : lookupKey t.last_update p with
    | none =>
      have hfill := refillTokens_new_bucket t p now' hl
      by_cases hq : q = p
      · subst hq
        rw [hfill.1] at hv
        injection hv with hv
        subst hv
        exact ⟨hcap, le_refl _⟩
      · rw [(hfill.2.2 q hq).1] at hv
        exact htok q v hv
    | some last =>
      have hspec := refill_some_spec t p now' last hl
      by_cases hq : q = p
      · subst hq
        rw [hspec.1] at hv
        injection hv with hv
        subst hv
        have hr0 : 0 < t.getRateLimit q := getRateLimit_pos hr q
        have hcur : 0 ≤ (lookupKey t.tokens q).getD 0 := by
          cases htk : lookupKey t.tokens q with
          | none => simp
          | some w => simpa using (htok q w htk).1
        have hlt : last ≤ now' := le_trans (hlast q last hl) hle
        rw [pyMin_eq_min]
        constructor
        · apply le_min hcap
          have : 0 ≤ (now' - last) * t.getRateLimit q :=
            mul_nonneg (by linarith) hr0.le
          linarith
        · exact min_le_left _ _
      · rw [(hspec.2.2 q hq).1] at hv
        exact htok q v hv
  · intro q u hu
    cases hl : lookupKey t.last_update p with
    | none =>
      have hfill := refillTokens_new_bucket t p now' hl
      by_cases hq : q = p
      · subst hq
        rw [hfill.2.1] at hu
        injection hu with hu
        subst hu
        exact le_refl _
      · rw [(hfill.2.2 q hq).2] at hu
        exact le_trans (hlast q u hu) hle
    | some last =>
      have hspec := refill_some_spec t p now' last hl
      by_cases hq : q = p
      · subst hq
        rw [hspec.2.1] at hu
        injection hu with hu
        subst hu
        exact le_refl _
      · rw [(hspec.2.2 q hq).2] at hu
        exact le_trans (hlast q u hu) hle

theorem acquireOnce_preserves_inv (t : APIThrottler) (p : String)
    (now now' : ℚ) (hcap : (0:ℚ) ≤ (t.capacity : ℚ))
    (hr : ∀ pr ∈ t.rate_limits, (0:ℚ) < pr.2)
    (hle : now ≤ now') (hinv : BucketInv t now) :
    BucketInv (t.acquireOnce p now').2 now' := by
  have hrf := refillTokens_preserves_inv t p now now' hcap hr hle hinv
  by_cases hg : 1 ≤ (lookupKey (t.refillTokens p now').tokens p).getD 0
  · rw [acquireOnce_true t p now' hg]
    obtain ⟨htok, hlast⟩ := hrf
    refine ⟨?_, hlast⟩
    intro q v hv
    rw [show ({ t.refillTokens p now' with
          tokens := setKey (t.refillTokens p now').tokens p
            ((lookupKey (t.refillTokens p now').tokens p).getD 0 - 1) } :
        APIThrottler).capacity = (t.refillTokens p now').capacity from rfl]
    rw [show ({ t.refillTokens p now' with
          tokens := setKey (t.refillTokens p now').tokens p
            ((lookupKey (t.refillTokens p now').tokens p).getD 0 - 1) } :
        APIThrottler).tokens = setKey (t.refillTokens p now').tokens p
          ((lookupKey (t.refillTokens p now').tokens p).getD 0 - 1) from rfl] at hv
    rw [lookupKey_setKey] at hv
    by_cases hq : p = q
    · rw [if_pos hq] at hv
      injection hv with hv
      subst hv
      cases htk : lookupKey (t.refillTokens p now').tokens p with
      | none =>
        rw [htk] at hg
        norm_num at hg
      | some w =>
        have hw := htok p w htk
        rw [htk] at hg
        simp only [Option.getD_some] at hg ⊢
        exact ⟨by linarith, by linarith [hw.2]⟩
    · rw [if_neg hq] at hv
      exact htok q v hv
  · rw [acquireOnce_false t p now' hg]
    exact hrf

theorem resetAll_preserves_inv (t : APIThrottler) (now now' : ℚ)
    (hcap : (0:ℚ) ≤ (t.capacity : ℚ)) (hle : now ≤ now')
    (hinv : BucketInv t now) :
    BucketInv (t.resetAll now') now' := by
  obtain ⟨htok, hlast⟩ := hinv
  constructor
  · intro q v hv
    have hs := resetProviders_spec now' t.rate_limits t q
    rw [show t.resetAll now' = APIThrottler.resetProviders t.rate_limits now' t
      from rfl] at hv ⊢
    rw [hs.1]
    by_cases hm : q ∈ t.rate_limits.map Prod.fst
    · rw [(hs.2.2.1 hm).1] at hv
      injection hv with hv
      subst hv
      exact ⟨hcap, le_refl _⟩
    · rw [(hs.2.2.2 hm).1] at hv
      exact htok q v hv
  · intro q u hu
    have hs := resetProviders_spec now' t.rate_limits t q
    rw [show t.resetAll now' = APIThrottler.resetProviders t.rate_limits now' t
      from rfl] at hu
    by_cases hm : q ∈ t.rate_limits.map Prod.fst
    · rw [(hs.2.2.1 hm).2] at hu
      injection hu with hu
      subst hu
      exact le_refl _
    · rw [(hs.2.2.2 hm).2] at hu
      exact le_trans (hlast q u hu) hle

theorem reset_single_preserves_inv (t : APIThrottler) (p : String)
    (hp : ¬ p = "") (now now' : ℚ) (hcap : (0:ℚ) ≤ (t.capacity : ℚ))
    (hle : now ≤ now') (hinv : BucketInv t now) :
    BucketInv (t.reset (some p) now') now' := by
  obtain ⟨htok, hlast⟩ := hinv
  constructor
  · intro q v hv
    simp only [APIThrottler.reset, if_neg hp] at hv ⊢
    rw [lookupKey_setKey] at hv
    by_cases hq : p = q
    · rw [if_pos hq] at hv
      injection hv with hv
      subst hv
      exact ⟨hcap, le_refl _⟩
    · rw [if_neg hq] at hv
      exact htok q v hv
  · intro q u hu
    simp only [APIThrottler.reset, if_neg hp] at hu
    rw [lookupKey_setKey] at hu
    by_cases hq : p = q
    · rw [if_pos hq] at hu
      injection hu with hu
      subst hu
      exact le_refl _
    · rw [if_neg hq] at hu
      exact le_trans (hlast q u hu) hle

theorem runStep_preserves_inv (t : APIThrottler) (s : Step) (now now' : ℚ)
    (hcap : (0:ℚ) ≤ (t.capacity : ℚ))
    (hr : ∀ pr ∈ t.rate_limits, (0:ℚ) < pr.2)
    (hle : now ≤ now') (hinv : BucketInv t now) :
    BucketInv (runStep t s now') now' := by
  cases s with
  | tryAcquire p => exact acquireOnce_preserves_inv t p now now' hcap hr hle hinv
  | avail p => exact refillTokens_preserves_inv t p now now' hcap hr hle hinv
  | resetOp po =>
    cases po with
    | none => exact resetAll_preserves_inv t now now' hcap hle hinv
    | some p =>
      by_cases hp : p = ""
      · show BucketInv (t.reset (some p) now') now'
        simp only [APIThrottler.reset, if_pos hp]
        exact resetAll_preserves_inv t now now' hcap hle hinv
      · exact reset_single_preserves_inv t p hp now now' hcap hle hinv

theorem runStep_capacity (t : APIThrottler) (s : Step) (now : ℚ) :
    (runStep t s now).capacity = t.capacity := by
  cases s with
  | tryAcquire p => exact acquireOnce_capacity t p now
  | avail p => exact refillTokens_capacity t p now
  | resetOp po =>
    cases po with
    | none => exact (resetProviders_spec now t.rate_limits t "").1
    | some p =>
      by_cases hp : p = ""
      · show (t.reset (some p) now).capacity = t.capacity
        simp only [APIThrottler.reset, if_pos hp]
        exact (resetProviders_spec now t.rate_limits t "").1
      · show (t.reset (some p) now).capacity = t.capacity
        simp only [APIThrottler.reset, if_neg hp]

theorem runStep_rate_limits (t : APIThrottler) (s : Step) (now : ℚ) :
    (runStep t s now).rate_limits = t.rate_limits := by
  cases s with
  | tryAcquire p => exact acquireOnce_rate_limits t p now
  | avail p => exact refillTokens_rate_limits t p now
  | resetOp po =>
    cases po with
    | none => exact (resetProviders_spec now t.rate_limits t "").2.1
    | some p =>
      by_cases hp : p = ""
      · show (t.reset (some p) now).rate_limits = t.rate_limits
        simp only [APIThrottler.reset, if_pos hp]
        exact (resetProviders_spec now t.rate_limits t "").2.1
      · show (t.reset (some p) now).rate_limits = t.rate_limits
        simp only [APIThrottler.reset, if_neg hp]

theorem runTrace_capacity (trace : List (ℚ × Step)) :
    ∀ t : APIThrottler, (runTrace t trace).capacity = t.capacity := by
  induction trace with
  | nil => intro t; rfl
  | cons q rest ih =>
    intro t
    obtain ⟨tq, sq⟩ := q
    rw [show runTrace t ((tq, sq) :: rest) = runTrace (runStep t sq tq) rest
      from rfl]
    rw [ih, runStep_capacity]

theorem runTrace_rate_limits (trace : List (ℚ × Step)) :
    ∀ t : APIThrottler, (runTrace t trace).rate_limits = t.rate_limits := by
  induction trace with
  | nil => intro t; rfl
  | cons q rest ih =>
    intro t
    obtain ⟨tq, sq⟩ := q
    rw [show runTrace t ((tq, sq) :: rest) = runTrace (runStep t sq tq) rest
      from rfl]
    rw [ih, runStep_rate_limits]

theorem runTrace_preserves_inv (trace : List (ℚ × Step)) :
    ∀ (t : APIThrottler) (now : ℚ),
      (0:ℚ) ≤ (t.capacity : ℚ) → (∀ pr ∈ t.rate_limits, (0:ℚ) < pr.2) →
      BucketInv t now → timesMono now trace = true →
      BucketInv (runTrace t trace) (endTime now trace) := by
  induction trace with
  | nil => intro t now _ _ hinv _; exact hinv
  | cons q rest ih =>
    intro t now hcap hr hinv hmono
    obtain ⟨tq, sq⟩ := q
    rw [timesMono, Bool.and_eq_true, decide_eq_true_eq] at hmono
    rw [show runTrace t ((tq, sq) :: rest) = runTrace (runStep t sq tq) rest
      from rfl]
    rw [show endTime now ((tq, sq) :: rest) = endTime tq rest from rfl]
    refine ih (runStep t sq tq) tq ?_ ?_ ?_ hmono.2
    · rw [runStep_capacity]; exact hcap
    · rw [runStep_rate_limits]; exact hr
    · exact runStep_preserves_inv t sq now tq hcap hr hmono.1 hinv

/-- C2. From a fresh throttler with positive capacity and positive rates,
after any trace of timestamped operations (single `acquire_token` polling
attempts, `get_available_tokens` calls, `reset` calls) under a
non-decreasing clock, every bucket's token count lies in `[0, capacity]`. -/
theorem tokens_within_capacity (rl : Option (List (String × ℚ))) (cap : ℤ)
    (hcap : 0 < cap)
    (hr : ∀ pr ∈ (APIThrottler.init rl cap).rate_limits, (0:ℚ) < pr.2)
    (start : ℚ) (trace : List (ℚ × Step))
    (hmono : timesMono start trace = true) :
    ∀ p v,
      lookupKey (runTrace (APIThrottler.init rl cap) trace).tokens p = some v →
      0 ≤ v ∧ v ≤ (cap : ℚ) := by
  have hinv0 : BucketInv (APIThrottler.init rl cap) start := by
    constructor
    · intro p v hv
      simp [APIThrottler.init, lookupKey] at hv
    · intro p u hu
      simp [APIThrottler.init, lookupKey] at hu
  have hcapq : (0:ℚ) ≤ ((APIThrottler.init rl cap).capacity : ℚ) := by
    have h0 : (0:ℤ) ≤ cap := hcap.le
    exact_mod_cast h0
  have h := runTrace_preserves_inv trace (APIThrottler.init rl cap) start hcapq
    hr hinv0 hmono
  intro p v hv
  have hb := h.1 p v hv
  rwa [runTrace_capacity] at hb

/-- Witness for C2: one granted acquisition for `"x"` from the default
configuration leaves 9 tokens, inside `[0, 10]`. -/
theorem tokens_within_capacity_witness :
    lookupKey
      (runTrace (APIThrottler.init none 10)
        [((0:ℚ), Step.tryAcquire "x")]).tokens "x" = some 9 ∧
    (0:ℚ) ≤ 9 ∧ (9:ℚ) ≤ ((10:ℤ) : ℚ) := by
  have hlook : lookupKey
      (runTrace (APIThrottler.init none 10)
        [((0:ℚ), Step.tryAcquire "x")]).tokens "x" = some 9 := by
    simp [runTrace, runStep, APIThrottler.init, APIThrottler.acquireOnce,
      APIThrottler.refillTokens, APIThrottler.getRateLimit, mergeDicts,
      DEFAULT_RATE_LIMITS, lookupKey, setKey, pyMin]
    norm_num
  exact ⟨hlook,
    tokens_within_capacity none 10 (by decide) (by decide) 0
      [((0:ℚ), Step.tryAcquire "x")] (by decide) "x" 9 hlook⟩

/-! ### C3: sustained-rate bound on successful acquisitions -/

theorem getRateLimit_eq_of_rate_limits (t t' : APIThrottler) (p : String)
    (h : t.rate_limits = t'.rate_limits) :
    t.getRateLimit p = t'.getRateLimit p := by
  simp [APIThrottler.getRateLimit, h]

/-- A refill aimed at one provider leaves every other provider's bucket
entries untouched. -/
theorem refillTokens_other (t : APIThrottler) (q p : String) (now : ℚ)
    (h : p ≠ q) :
    lookupKey (t.refillTokens q now).tokens p = lookupKey t.tokens p ∧
    lookupKey (t.refillTokens q now).last_update p =
      lookupKey t.last_update p := by
  cases hl : lookupKey t.last_update q with
  | none => exact (refillTokens_new_bucket t q now hl).2.2 p h
  | some last => exact (refill_some_spec t q now last hl).2.2 p h

/-- An acquisition attempt aimed at one provider leaves every other
provider's bucket entries untouched. -/
theorem acquireOnce_other (t : APIThrottler) (q p : String) (now : ℚ)
    (h : p ≠ q) :
    lookupKey (t.acquireOnce q now).2.tokens p = lookupKey t.tokens p ∧
    lookupKey (t.acquireOnce q now).2.last_update p =
      lookupKey t.last_update p := by
  by_cases hg : 1 ≤ (lookupKey (t.refillTokens q now).tokens q).getD 0
  · rw [acquireOnce_true t q now hg]
    constructor
    · rw [show ({ t.refillTokens q now with
          tokens := setKey (t.refillTokens q now).tokens q
            ((lookupKey (t.refillTokens q now).tokens q).getD 0 - 1) } :
          APIThrottler).tokens = setKey (t.refillTokens q now).tokens q
            ((lookupKey (t.refillTokens q now).tokens q).getD 0 - 1) from rfl]
      rw [lookupKey_setKey, if_neg (fun hh => h hh.symm)]
      exact (refillTokens_other t q p now h).1
    · exact (refillTokens_other t q p now h).2
  · rw [acquireOnce_false t q now hg]
    exact refillTokens_other t q p now h

/-- Value of a refill on a bucket whose entries both exist. -/
theorem refill_some_value (t : APIThrottler) (p : String) (now u v : ℚ)
    (hl : lookupKey t.last_update p = some u)
    (ht : lookupKey t.tokens p = some v) :
    lookupKey (t.refillTokens p now).tokens p =
      some (pyMin (t.capacity : ℚ) (v + (now - u) * t.getRateLimit p)) ∧
    lookupKey (t.refillTokens p now).last_update p = some now := by
  have h := refill_some_spec t p now u hl
  refine ⟨?_, h.2.1⟩
  rw [h.1, ht]
  simp

/-- An acquisition attempt in terms of the refilled token count `w`: it
grants exactly when `1 ≤ w`, consuming one token in that case. -/
theorem acquireOnce_self_case (t : APIThrottler) (p : String) (now w : ℚ)
    (hw : lookupKey (t.refillTokens p now).tokens p = some w)
    (hlu : lookupKey (t.refillTokens p now).last_update p = some now) :
    (t.acquireOnce p now).1 = decide (1 ≤ w) ∧
    lookupKey (t.acquireOnce p now).2.tokens p =
      some (if 1 ≤ w then w - 1 else w) ∧
    lookupKey (t.acquireOnce p now).2.last_update p = some now := by
  by_cases hg : 1 ≤ w
  · have hg' : 1 ≤ (lookupKey (t.refillTokens p now).tokens p).getD 0 := by
      rw [hw]; simpa using hg
    rw [acquireOnce_true t p now hg']
    refine ⟨by simp [hg], ?_, ?_⟩
    · rw [show ({ t.refillTokens p now with
          tokens := setKey (t.refillTokens p now).tokens p
            ((lookupKey (t.refillTokens p now).tokens p).getD 0 - 1) } :
          APIThrottler).tokens = setKey (t.refillTokens p now).tokens p
            ((lookupKey (t.refillTokens p now).tokens p).getD 0 - 1) from rfl]
      rw [lookupKey_setKey, if_pos rfl, hw, if_pos hg]
      simp
    · exact hlu
  · have hg' : ¬ 1 ≤ (lookupKey (t.refillTokens p now).tokens p).getD 0 := by
      rw [hw]; simpa using hg
    rw [acquireOnce_false t p now hg']
    exact ⟨by simp [hg], by rw [hw, if_neg hg], hlu⟩

/-- The trace's end clock never exceeds an upper bound on its timestamps. -/
theorem endTime_le (b : ℚ) (trace : List (ℚ × Step)) :
    ∀ now, now ≤ b → (∀ qs ∈ trace, qs.1 ≤ b) → endTime now trace ≤ b := by
  induction trace with
  | nil => intro now h _; exact h
  | cons q rest ih =>
    intro now _ hall
    exact ih q.1 (hall q (List.mem_cons_self _ _))
      (fun qs hqs => hall qs (List.mem_cons_of_mem _ hqs))

/-- Core bound for C3: along any reset-free trace under a non-decreasing
clock, the successful acquisitions for provider `p` are bounded by the
available potential — current tokens plus rate times remaining time. -/
theorem runTraceCount_le (p : String) (trace : List (ℚ × Step)) :
    ∀ (t : APIThrottler) (now B : ℚ),
      (0:ℚ) ≤ (t.capacity : ℚ) →
      (∀ pr ∈ t.rate_limits, (0:ℚ) < pr.2) →
      timesMono now trace = true →
      (∀ qs ∈ trace, qs.2.isResetOp = false) →
      ((lookupKey t.last_update p = none ∧
          (t.capacity : ℚ) + t.getRateLimit p * (endTime now trace - now) ≤ B) ∨
       (∃ u v, lookupKey t.last_update p = some u ∧
          lookupKey t.tokens p = some v ∧ u ≤ now ∧ 0 ≤ v ∧
          v + t.getRateLimit p * (endTime now trace - u) ≤ B)) →
      ((runTraceCount t p trace).2 : ℚ) ≤ B := by
  induction trace with
  | nil =>
    intro t now B hcap hr _ _ hbucket
    have hrp : 0 < t.getRateLimit p := getRateLimit_pos hr p
    have hcnt : ((runTraceCount t p []).2 : ℚ) = 0 := by simp [runTraceCount]
    rw [hcnt]
    rcases hbucket with ⟨_, hB⟩ | ⟨u, v, _, _, hu, hv, hB⟩
    · have he : endTime now ([] : List (ℚ × Step)) = now := rfl
      rw [he, sub_self, mul_zero, add_zero] at hB
      linarith
    · have he : endTime now ([] : List (ℚ × Step)) = now := rfl
      rw [he] at hB
      have h0 : 0 ≤ t.getRateLimit p * (now - u) :=
        mul_nonneg hrp.le (sub_nonneg.mpr hu)
      linarith
  | cons q rest ih =>
    intro t now B hcap hr hmono hnr hbucket
    obtain ⟨tq, sq⟩ := q
    rw [timesMono, Bool.and_eq_true, decide_eq_true_eq] at hmono
    obtain ⟨hnowtq, hmono'⟩ := hmono
    have hnr0 : (tq, sq).2.isResetOp = false :=
      hnr (tq, sq) (List.mem_cons_self _ _)
    have hnr' : ∀ qs ∈ rest, qs.2.isResetOp = false :=
      fun qs hqs => hnr qs (List.mem_cons_of_mem _ hqs)
    have hrp : 0 < t.getRateLimit p := getRateLimit_pos hr p
    have hE : endTime now ((tq, sq) :: rest) = endTime tq rest := rfl
    rw [hE] at hbucket
    cases sq with
    | resetOp po => simp [Step.isResetOp] at hnr0
    | avail q1 =>
      have hcount : (runTraceCount t p ((tq, Step.avail q1) :: rest)).2 =
          (runTraceCount (runStep t (Step.avail q1) tq) p rest).2 := by
        simp [runTraceCount]
      rw [hcount]
      have hrleq : (t.refillTokens q1 tq).rate_limits = t.rate_limits :=
        refillTokens_rate_limits t q1 tq
      have hrate : (t.refillTokens q1 tq).getRateLimit p = t.getRateLimit p :=
        getRateLimit_eq_of_rate_limits _ _ p hrleq
      have hcapeq : ((t.refillTokens q1 tq).capacity : ℚ) = (t.capacity : ℚ) := by
        rw [refillTokens_capacity]
      apply ih (t.refillTokens q1 tq) tq B (by rw [hcapeq]; exact hcap)
        (by rw [hrleq]; exact hr) hmono' hnr'
      by_cases hq : p = q1
      · subst hq
        rcases hbucket with ⟨hnone, hB⟩ | ⟨u, v, hu0, hv0, huno, hvpos, hB⟩
        · have hfill := refillTokens_new_bucket t p tq hnone
          right
          refine ⟨tq, (t.capacity : ℚ), hfill.2.1, hfill.1, le_refl _, hcap, ?_⟩
          rw [hrate]
          have hle2 : t.getRateLimit p * (endTime tq rest - tq) ≤
              t.getRateLimit p * (endTime tq rest - now) :=
            mul_le_mul_of_nonneg_left (by linarith) hrp.le
          linarith
        · have hval := refill_some_value t p tq u v hu0 hv0
          right
          refine ⟨tq, pyMin (t.capacity : ℚ) (v + (tq - u) * t.getRateLimit p),
            hval.2, hval.1, le_refl _, ?_, ?_⟩
          · rw [pyMin_eq_min]
            apply le_min hcap
            have : 0 ≤ (tq - u) * t.getRateLimit p :=
              mul_nonneg (by linarith) hrp.le
            linarith
          · rw [hrate]
            have hwle : pyMin (t.capacity : ℚ)
                (v + (tq - u) * t.getRateLimit p) ≤
                v + (tq - u) * t.getRateLimit p := by
              rw [pyMin_eq_min]; exact min_le_right _ _
            have hring : (tq - u) * t.getRateLimit p +
                t.getRateLimit p * (endTime tq rest - tq) =
                t.getRateLimit p * (endTime tq rest - u) := by ring
            linarith
      · rcases hbucket with ⟨hnone, hB⟩ | ⟨u, v, hu0, hv0, huno, hvpos, hB⟩
        · left
          refine ⟨?_, ?_⟩
          · rw [(refillTokens_other t q1 p tq hq).2]
            exact hnone
          · rw [hrate, hcapeq]
            have hle2 : t.getRateLimit p * (endTime tq rest - tq) ≤
                t.getRateLimit p * (endTime tq rest - now) :=
              mul_le_mul_of_nonneg_left (by linarith) hrp.le
            linarith
        · right
          refine ⟨u, v, ?_, ?_, by linarith, hvpos, ?_⟩
          · rw [(refillTokens_other t q1 p tq hq).2]
            exact hu0
          · rw [(refillTokens_other t q1 p tq hq).1]
            exact hv0
          · rw [hrate]
            exact hB
    | tryAcquire q1 =>
      have hcount : (runTraceCount t p ((tq, Step.tryAcquire q1) :: rest)).2 =
          (if (q1 == p && (t.acquireOnce q1 tq).1) = true then 1 else 0) +
            (runTraceCount (t.acquireOnce q1 tq).2 p rest).2 := rfl
      have hrleq : (t.acquireOnce q1 tq).2.rate_limits = t.rate_limits :=
        acquireOnce_rate_limits t q1 tq
      have hrate : (t.acquireOnce q1 tq).2.getRateLimit p = t.getRateLimit p :=
        getRateLimit_eq_of_rate_limits _ _ p hrleq
      have hcapeq : ((t.acquireOnce q1 tq).2.capacity : ℚ) = (t.capacity : ℚ) := by
        rw [acquireOnce_capacity]
      by_cases hq : p = q1
      · subst hq
        have hbeq : (p == p) = true := beq_self_eq_true p
        rcases hbucket with ⟨hnone, hB⟩ | ⟨u, v, hu0, hv0, huno, hvpos, hB⟩
        · have hfill := refillTokens_new_bucket t p tq hnone
          have hself := acquireOnce_self_case t p tq (t.capacity : ℚ)
            hfill.1 hfill.2.1
          by_cases hg : (1:ℚ) ≤ (t.capacity : ℚ)
          · have hc : (p == p && (t.acquireOnce p tq).1) = true := by
              rw [hbeq, hself.1, decide_eq_true hg]
              rfl
            rw [hcount, hc]
            push_cast
            simp only [eq_self_iff_true, if_true]
            have hrest := ih (t.acquireOnce p tq).2 tq (B - 1)
              (by rw [hcapeq]; exact hcap) (by rw [hrleq]; exact hr)
              hmono' hnr'
              (Or.inr ⟨tq, (t.capacity : ℚ) - 1,
                hself.2.2, by rw [hself.2.1, if_pos hg], le_refl _,
                by linarith, by
                  rw [hrate]
                  have hle2 : t.getRateLimit p * (endTime tq rest - tq) ≤
                      t.getRateLimit p * (endTime tq rest - now) :=
                    mul_le_mul_of_nonneg_left (by linarith) hrp.le
                  linarith⟩)
            linarith
          · have hc : (p == p && (t.acquireOnce p tq).1) = false := by
              rw [hbeq, hself.1, decide_eq_false hg]
              rfl
            rw [hcount, hc]
            push_cast
            rw [zero_add]
            have hrest := ih (t.acquireOnce p tq).2 tq B
              (by rw [hcapeq]; exact hcap) (by rw [hrleq]; exact hr)
              hmono' hnr'
              (Or.inr ⟨tq, (t.capacity : ℚ),
                hself.2.2, by rw [hself.2.1, if_neg hg], le_refl _, hcap, by
                  rw [hrate]
                  have hle2 : t.getRateLimit p * (endTime tq rest - tq) ≤
                      t.getRateLimit p * (endTime tq rest - now) :=
                    mul_le_mul_of_nonneg_left (by linarith) hrp.le
                  linarith⟩)
            linarith
        · have hval := refill_some_value t p tq u v hu0 hv0
          have hself := acquireOnce_self_case t p tq
            (pyMin (t.capacity : ℚ) (v + (tq - u) * t.getRateLimit p))
            hval.1 hval.2
          have hw0 : 0 ≤ pyMin (t.capacity : ℚ)
              (v + (tq - u) * t.getRateLimit p) := by
            rw [pyMin_eq_min]
            apply le_min hcap
            have : 0 ≤ (tq - u) * t.getRateLimit p :=
              mul_nonneg (by linarith) hrp.le
            linarith
          have hwle : pyMin (t.capacity : ℚ)
              (v + (tq - u) * t.getRateLimit p) ≤
              v + (tq - u) * t.getRateLimit p := by
            rw [pyMin_eq_min]; exact min_le_right _ _
          have hring : (tq - u) * t.getRateLimit p +
              t.getRateLimit p * (endTime tq rest - tq) =
              t.getRateLimit p * (endTime tq rest - u) := by ring
          by_cases hg : (1:ℚ) ≤ pyMin (t.capacity : ℚ)
              (v + (tq - u) * t.getRateLimit p)
          · have hc : (p == p && (t.acquireOnce p tq).1) = true := by
              rw [hbeq, hself.1, decide_eq_true hg]
              rfl
            rw [hcount, hc]
            push_cast
            simp only [eq_self_iff_true, if_true]
            have hrest := ih (t.acquireOnce p tq).2 tq (B - 1)
              (by rw [hcapeq]; exact hcap) (by rw [hrleq]; exact hr)
              hmono' hnr'
              (Or.inr ⟨tq,
                pyMin (t.capacity : ℚ) (v + (tq - u) * t.getRateLimit p) - 1,
                hself.2.2, by rw [hself.2.1, if_pos hg], le_refl _,
                by linarith, by
                  rw [hrate]
                  linarith⟩)
            linarith
          · have hc : (p == p && (t.acquireOnce p tq).1) = false := by
              rw [hbeq, hself.1, decide_eq_false hg]
              rfl
            rw [hcount, hc]
            push_cast
            rw [zero_add]
            have hrest := ih (t.acquireOnce p tq).2 tq B
              (by rw [hcapeq]; exact hcap) (by rw [hrleq]; exact hr)
              hmono' hnr'
              (Or.inr ⟨tq,
                pyMin (t.capacity : ℚ) (v + (tq - u) * t.getRateLimit p),
                hself.2.2, by rw [hself.2.1, if_neg hg], le_refl _, hw0, by
                  rw [hrate]
                  linarith⟩)
            linarith
      · have hbeq : (q1 == p) = false :=
          beq_eq_false_iff_ne.mpr (fun h => hq h.symm)
        have hc : (q1 == p && (t.acquireOnce q1 tq).1) = false := by
          rw [hbeq, Bool.false_and]
        rw [hcount, hc]
        push_cast
        rw [zero_add]
        apply ih (t.acquireOnce q1 tq).2 tq B
          (by rw [hcapeq]; exact hcap) (by rw [hrleq]; exact hr)
          hmono' hnr'
        rcases hbucket with ⟨hnone, hB⟩ | ⟨u, v, hu0, hv0, huno, hvpos, hB⟩
        · left
          refine ⟨?_, ?_⟩
          · rw [(acquireOnce_other t q1 p tq hq).2]
            exact hnone
          · rw [hrate, hcapeq]
            have hle2 : t.getRateLimit p * (endTime tq rest - tq) ≤
                t.getRateLimit p * (endTime tq rest - now) :=
              mul_le_mul_of_nonneg_left (by linarith) hrp.le
            linarith
        · right
          refine ⟨u, v, ?_, ?_, by linarith, hvpos, ?_⟩
          · rw [(acquireOnce_other t q1 p tq hq).2]
            exact hu0
          · rw [(acquireOnce_other t q1 p tq hq).1]
            exact hv0
          · rw [hrate]
            exact hB

/-- C3. From a fresh throttler with positive capacity and positive rates,
over any reset-free trace whose timestamps are non-decreasing and lie in a
window of length `T` starting at `start`, the number of successful
acquisitions for a provider is at most `capacity + ratePerSecond × T`. -/
theorem acquisitions_bounded_by_rate (rl : Option (List (String × ℚ)))
    (cap : ℤ) (hcap : 0 < cap)
    (hr : ∀ pr ∈ (APIThrottler.init rl cap).rate_limits, (0:ℚ) < pr.2)
    (p : String) (start T : ℚ) (hT : 0 ≤ T)
    (trace : List (ℚ × Step))
    (hmono : timesMono start trace = true)
    (htimes : ∀ qs ∈ trace, qs.1 ≤ start + T)
    (hnr : ∀ qs ∈ trace, qs.2.isResetOp = false) :
    ((runTraceCount (APIThrottler.init rl cap) p trace).2 : ℚ) ≤
      (cap : ℚ) + (APIThrottler.init rl cap).getRateLimit p * T := by
  have hrp : 0 < (APIThrottler.init rl cap).getRateLimit p :=
    getRateLimit_pos hr p
  have hcapq : (0:ℚ) ≤ ((APIThrottler.init rl cap).capacity : ℚ) := by
    have h0 : (0:ℤ) ≤ cap := hcap.le
    exact_mod_cast h0
  have hend : endTime start trace ≤ start + T :=
    endTime_le (start + T) trace start (by linarith) htimes
  apply runTraceCount_le p trace (APIThrottler.init rl cap) start _ hcapq hr
    hmono hnr
  left
  refine ⟨rfl, ?_⟩
  have hmul : (APIThrottler.init rl cap).getRateLimit p *
      (endTime start trace - start) ≤
      (APIThrottler.init rl cap).getRateLimit p * T :=
    mul_le_mul_of_nonneg_left (by linarith) hrp.le
  rw [show ((APIThrottler.init rl cap).capacity : ℚ) = (cap : ℚ) from rfl]
  linarith

/-- Witness for C3: two acquisitions for `"x"` inside a 2-second window of
the default configuration are within `10 + 1 × 2`. -/
theorem acquisitions_bounded_by_rate_witness :
    ((runTraceCount (APIThrottler.init none 10) "x"
        [((0:ℚ), Step.tryAcquire "x"), ((1:ℚ), Step.tryAcquire "x")]).2 : ℚ) ≤
      ((10:ℤ) : ℚ) + (APIThrottler.init none 10).getRateLimit "x" * 2 :=
  acquisitions_bounded_by_rate none 10 (by decide) (by decide) "x" 0 2
    (by norm_num)
    [((0:ℚ), Step.tryAcquire "x"), ((1:ℚ), Step.tryAcquire "x")]
    (by decide) (by norm_num) (by decide)

end QuickStock
